import Mathlib

/-!
Verification of the access-control visibility resolver and username
identity-lifecycle manager of the Other-Library repository.

The definitions below are a shallow embedding of the database-resident
logic in `supabase/schema.sql` (tables, SQL functions, triggers and
row-level-security policies) and of the public Next.js read paths under
`apps/web/src/app/u/[username]`.  Tables are modelled as lists of rows,
`auth.uid()` as an `Option Nat` viewer, SQL text columns as `String`,
and the plpgsql `raise exception` control flow as `Except`.
-/

/-- Row of `public.profiles` (schema.sql lines 13-21): stable id, unique
username, visibility text column (default `followers_only`). -/
structure Profile where
  id : Nat
  username : String
  visibility : String
deriving DecidableEq

/-- Row of `public.username_aliases` (schema.sql lines 80-85):
`old_username` is the primary key. -/
structure Alias where
  old_username : String
  current_username : String
  user_id : Nat
deriving DecidableEq

/-- Row of `public.follows` (schema.sql lines 218-226):
composite key (follower_id, followee_id) and a status text column. -/
structure Follow where
  follower_id : Nat
  followee_id : Nat
  status : String
deriving DecidableEq

/-- Row of `public.user_books` (schema.sql lines 315-332); only the
columns the visibility logic reads are modelled. -/
structure UserBook where
  id : Nat
  owner_id : Nat
  visibility : String
deriving DecidableEq

/-- The database state: the four tables the specified subsystem touches. -/
structure DB where
  profiles : List Profile
  username_aliases : List Alias
  follows : List Follow
  user_books : List UserBook
deriving DecidableEq

/-- The empty database. -/
def db0 : DB := ⟨[], [], [], []⟩

/-! ### Username helpers (schema.sql lines 92-125) -/

/-- Postgres `trim(input)` trims space characters from both ends. -/
def trim_spaces (cs : List Char) : List Char :=
  ((cs.dropWhile (fun c => c == ' ')).reverse.dropWhile (fun c => c == ' ')).reverse

/-- ASCII lowercasing of one character, as `lower()` acts on the
usernames occurring here. -/
def lower_char (c : Char) : Char :=
  if 'A' ≤ c && c ≤ 'Z' then Char.ofNat (c.toNat + 32) else c

/-- `public.normalize_username`: `lower(trim(input))`. -/
def normalize_username (input : String) : String :=
  String.mk ((trim_spaces input.toList).map lower_char)

/-- One character of the `^[a-z0-9_]+$` charset. -/
def username_char_ok (c : Char) : Bool :=
  ('a' ≤ c && c ≤ 'z') || ('0' ≤ c && c ≤ '9') || c == '_'

/-- `public.is_valid_username`: length 3-24, charset `[a-z0-9_]`,
does not start or end with an underscore. -/
def is_valid_username (input : String) : Bool :=
  let cs := input.toList
  decide (3 ≤ cs.length) && decide (cs.length ≤ 24)
  && cs.all username_char_ok
  && (match cs.head? with | some c => c != '_' | none => false)
  && (match cs.getLast? with | some c => c != '_' | none => false)

/-- The fixed reserved-token array of `public.is_reserved_username`. -/
def reserved_usernames : List String :=
  ["app", "api", "u", "b", "books", "setup", "settings",
   "auth", "login", "logout", "signup", "signin",
   "www", "admin", "root", "support", "help"]

/-- `public.is_reserved_username`: membership of the normalized input in
the fixed token array. -/
def is_reserved_username (input : String) : Bool :=
  reserved_usernames.any (fun r => r == normalize_username input)

/-! ### Account creation and rename (schema.sql lines 53-213) -/

/-- `public.handle_new_user` trigger: inserts a profile for a fresh auth
user.  `uname` stands for `coalesce(nullif(raw_user_meta_data->>'username',
''), generate_default_username(id))` - the caller-supplied signup metadata
when present, which is inserted with no validation.  `on conflict (id) do
nothing` makes an existing id a no-op; a violation of the unique
constraint on `profiles.username` aborts the signup, leaving the state
unchanged. -/
def handle_new_user (s : DB) (uid : Nat) (uname : String) : DB :=
  if s.profiles.any (fun p => p.id == uid) then s
  else if s.profiles.any (fun p => p.username == uname) then s
  else { s with profiles := ⟨uid, uname, "followers_only"⟩ :: s.profiles }

/-- The failure modes `change_username` signals via `raise exception`. -/
inductive UErr where
  | not_authenticated
  | invalid_username
  | reserved_username
  | profile_not_found
  | username_taken
deriving DecidableEq

/-- The jsonb payload `change_username` returns on success. -/
structure RenameOk where
  old : String
  new : String
  changed : Bool
deriving DecidableEq

/-- `public.change_username(new_username)` (schema.sql lines 127-186),
acting as `uid`: normalize, validate, reserved check, load current
username, no-op when unchanged, reject when the target name is any
profile's username or any alias's `old_username`, then update the
profile, repoint all of the actor's alias rows, and upsert the
`(prev, next)` alias row (`on conflict (old_username) do update`). -/
def change_username (s : DB) (uid : Option Nat) (new_username : String) :
    Except UErr (DB × RenameOk) :=
  match uid with
  | none => .error .not_authenticated
  | some uid =>
    let next := normalize_username new_username
    if !is_valid_username next then .error .invalid_username
    else if is_reserved_username next then .error .reserved_username
    else
      match s.profiles.find? (fun p => p.id == uid) with
      | none => .error .profile_not_found
      | some p =>
        let prev := p.username
        if next == prev then .ok (s, ⟨prev, next, false⟩)
        else if s.profiles.any (fun q => q.username == next) then .error .username_taken
        else if s.username_aliases.any (fun a => a.old_username == next) then .error .username_taken
        else
          let profiles2 := s.profiles.map
            (fun q => if q.id == uid then { q with username := next } else q)
          let repointed := s.username_aliases.map
            (fun a => if a.user_id == uid then { a with current_username := next } else a)
          let upserted :=
            if repointed.any (fun a => a.old_username == prev) then
              repointed.map (fun a =>
                if a.old_username == prev then
                  { a with current_username := next, user_id := uid }
                else a)
            else ⟨prev, next, uid⟩ :: repointed
          .ok ({ s with profiles := profiles2, username_aliases := upserted },
               ⟨prev, next, true⟩)

/-- `public.is_username_available(input_username)` (schema.sql lines
189-213): normalize, then false when ill-formed, reserved, held by a
profile, or recorded as any alias's `old_username`. -/
def is_username_available (s : DB) (input : String) : Bool :=
  let u := normalize_username input
  if !is_valid_username u then false
  else if is_reserved_username u then false
  else if s.profiles.any (fun p => p.username == u) then false
  else if s.username_aliases.any (fun a => a.old_username == u) then false
  else true

/-! ### Visibility resolver (schema.sql lines 236-290 and 342-362) -/

/-- `public.is_approved_follower(viewer, owner)`: an approved follow edge
viewer -> owner exists. -/
def is_approved_follower (s : DB) (viewer owner : Nat) : Bool :=
  s.follows.any (fun f =>
    f.follower_id == viewer && f.followee_id == owner && f.status == "approved")

/-- `public.is_public_profile(target)`: the target's profile row has
`visibility = 'public'`.  Reads only the profile's own flag. -/
def is_public_profile (s : DB) (target : Nat) : Bool :=
  s.profiles.any (fun p => p.id == target && p.visibility == "public")

/-- `public.has_public_books(target)`: the target owns a `user_books` row
with `visibility = 'public'`. -/
def has_public_books (s : DB) (target : Nat) : Bool :=
  s.user_books.any (fun ub => ub.owner_id == target && ub.visibility == "public")

/-- `public.can_view_profile(target)` evaluated with `auth.uid() = uid`:
owner, or public profile, or authenticated approved follower, or the
target has a public book.  The SQL `auth.uid() is not null and
is_approved_follower(auth.uid(), target)` clause is the `match`. -/
def can_view_profile (s : DB) (uid : Option Nat) (target : Nat) : Bool :=
  (uid == some target)
  || is_public_profile s target
  || (match uid with | some v => is_approved_follower s v target | none => false)
  || has_public_books s target

/-- `public.can_view_user_book(book)` evaluated with `auth.uid() = uid`:
owner, or public item, or followers-only item seen by an approved
follower, or inherit item whose owner profile is public or is approved-
followed by the viewer. -/
def can_view_user_book (s : DB) (uid : Option Nat) (book : UserBook) : Bool :=
  (uid == some book.owner_id)
  || (book.visibility == "public")
  || ((book.visibility == "followers_only")
      && (match uid with | some v => is_approved_follower s v book.owner_id | none => false))
  || ((book.visibility == "inherit")
      && (is_public_profile s book.owner_id
          || (match uid with | some v => is_approved_follower s v book.owner_id | none => false)))

/-! ### Specification-side predicates (written from spec.md sections 3 and 4.1) -/

/-- Spec: `IsApprovedFollower(viewer, target)` - a FollowEdge
{follower=viewer, followee=target, status=approved} exists. -/
def ApprovedFollowerEdge (s : DB) (viewer target : Nat) : Prop :=
  ∃ f ∈ s.follows, f.follower_id = viewer ∧ f.followee_id = target ∧ f.status = "approved"

/-- Spec: `RawProfileIsPublic` - the target profile's own visibility flag
is `public`; reads nothing else. -/
def RawProfileIsPublic (s : DB) (owner : Nat) : Prop :=
  ∃ p ∈ s.profiles, p.id = owner ∧ p.visibility = "public"

/-- Spec: an item's effective visibility is public - its own flag is
`public`, or it is `inherit` and the owner's profile is public (an
unrecognized flag is the most restrictive option, so never public). -/
def EffectiveVisibilityPublic (s : DB) (b : UserBook) : Prop :=
  b.visibility = "public" ∨ (b.visibility = "inherit" ∧ RawProfileIsPublic s b.owner_id)

instance (s : DB) (t : Nat) : Decidable (RawProfileIsPublic s t) := by
  unfold RawProfileIsPublic; infer_instance

instance (s : DB) (v t : Nat) : Decidable (ApprovedFollowerEdge s v t) := by
  unfold ApprovedFollowerEdge; infer_instance

instance (s : DB) (b : UserBook) : Decidable (EffectiveVisibilityPublic s b) := by
  unfold EffectiveVisibilityPublic; infer_instance

/-- Spec 4.1: `CanViewProfile(viewer, target)` as worded in the spec. -/
def specCanViewProfile (s : DB) (viewer : Option Nat) (target : Nat) : Prop :=
  viewer = some target
  ∨ RawProfileIsPublic s target
  ∨ (∃ v, viewer = some v ∧ ApprovedFollowerEdge s v target)
  ∨ ∃ b ∈ s.user_books, b.owner_id = target ∧ EffectiveVisibilityPublic s b

/-- Spec 4.1: `CanViewCatalogItem(viewer, item)` as worded in the spec. -/
def specCanViewCatalogItem (s : DB) (viewer : Option Nat) (b : UserBook) : Prop :=
  viewer = some b.owner_id
  ∨ b.visibility = "public"
  ∨ (b.visibility = "followers_only" ∧ ∃ v, viewer = some v ∧ ApprovedFollowerEdge s v b.owner_id)
  ∨ (b.visibility = "inherit"
     ∧ (RawProfileIsPublic s b.owner_id
        ∨ ∃ v, viewer = some v ∧ ApprovedFollowerEdge s v b.owner_id))

/-! ### Bridging lemmas between the Bool embedding and the spec predicates -/

lemma is_approved_follower_iff (s : DB) (v t : Nat) :
    is_approved_follower s v t = true ↔ ApprovedFollowerEdge s v t := by
  simp [is_approved_follower, ApprovedFollowerEdge, List.any_eq_true, and_assoc]

lemma is_public_profile_iff (s : DB) (t : Nat) :
    is_public_profile s t = true ↔ RawProfileIsPublic s t := by
  simp [is_public_profile, RawProfileIsPublic, List.any_eq_true]

lemma has_public_books_iff (s : DB) (t : Nat) :
    has_public_books s t = true ↔
      ∃ b ∈ s.user_books, b.owner_id = t ∧ b.visibility = "public" := by
  simp [has_public_books, List.any_eq_true]

/-- Claim C1: `can_view_profile` returns true exactly when the viewer is
the target, the target's profile visibility is public, the viewer is a
non-null approved follower of the target, or the target owns a catalog
item whose effective visibility is public. -/
theorem c1_can_view_profile_matches_spec (s : DB) (viewer : Option Nat) (target : Nat) :
    can_view_profile s viewer target = true ↔ specCanViewProfile s viewer target := by
  unfold can_view_profile specCanViewProfile
  constructor
  · intro h
    simp only [Bool.or_eq_true] at h
    rcases h with ((h | h) | h) | h
    · left
      cases viewer <;> simp_all
    · right; left; exact (is_public_profile_iff s target).mp h
    · right; right; left
      cases viewer with
      | none => simp at h
      | some v => exact ⟨v, rfl, (is_approved_follower_iff s v target).mp h⟩
    · right; right; right
      obtain ⟨b, hb, hbo, hbv⟩ := (has_public_books_iff s target).mp h
      exact ⟨b, hb, hbo, Or.inl hbv⟩
  · intro h
    simp only [Bool.or_eq_true]
    rcases h with h | h | ⟨v, hv, hf⟩ | ⟨b, hb, hbo, hbv⟩
    · subst h; simp
    · exact Or.inl (Or.inl (Or.inr ((is_public_profile_iff s target).mpr h)))
    · subst hv
      exact Or.inl (Or.inr ((is_approved_follower_iff s v target).mpr hf))
    · rcases hbv with hpub | ⟨_, hraw⟩
      · exact Or.inr ((has_public_books_iff s target).mpr ⟨b, hb, hbo, hpub⟩)
      · subst hbo
        exact Or.inl (Or.inl (Or.inr ((is_public_profile_iff s b.owner_id).mpr hraw)))

/-- Claim C2: `can_view_user_book` returns true exactly when the viewer
owns the item, the item is public, it is followers-only and the viewer an
approved follower of the owner, or it is inherit and the owner's raw
profile flag is public or the viewer an approved follower; moreover the
decision reads only the profiles and follows tables, never the
`user_books` table (so never the has-public-books clause) nor the
aliases. -/
theorem c2_can_view_user_book_matches_spec (s : DB) (viewer : Option Nat) (b : UserBook) :
    (can_view_user_book s viewer b = true ↔ specCanViewCatalogItem s viewer b)
    ∧ ∀ al2 ub2, can_view_user_book ⟨s.profiles, al2, s.follows, ub2⟩ viewer b
        = can_view_user_book s viewer b := by
  constructor
  · unfold can_view_user_book specCanViewCatalogItem
    constructor
    · intro h
      simp only [Bool.or_eq_true, Bool.and_eq_true, beq_iff_eq] at h
      rcases h with ((h | h) | ⟨hst, h⟩) | ⟨hst, h⟩
      · left; cases viewer <;> simp_all
      · right; left; exact h
      · right; right; left
        refine ⟨hst, ?_⟩
        cases viewer with
        | none => simp at h
        | some v => exact ⟨v, rfl, (is_approved_follower_iff s v b.owner_id).mp h⟩
      · right; right; right
        refine ⟨hst, ?_⟩
        rcases h with h | h
        · exact Or.inl ((is_public_profile_iff s b.owner_id).mp h)
        · right
          cases viewer with
          | none => simp at h
          | some v => exact ⟨v, rfl, (is_approved_follower_iff s v b.owner_id).mp h⟩
    · intro h
      simp only [Bool.or_eq_true, Bool.and_eq_true, beq_iff_eq]
      rcases h with h | h | ⟨hst, v, hv, hf⟩ | ⟨hst, h⟩
      · subst h; simp
      · exact Or.inl (Or.inl (Or.inr h))
      · subst hv
        exact Or.inl (Or.inr ⟨hst, (is_approved_follower_iff s v b.owner_id).mpr hf⟩)
      · refine Or.inr ⟨hst, ?_⟩
        rcases h with h | ⟨v, hv, hf⟩
        · exact Or.inl ((is_public_profile_iff s b.owner_id).mpr h)
        · subst hv
          exact Or.inr ((is_approved_follower_iff s v b.owner_id).mpr hf)
  · intro al2 ub2
    obtain ⟨ps, al, fs, ub⟩ := s
    rfl

/-- Claim C3: an anonymous viewer is denied on every profile whose
visibility flag is not public and that owns no effectively-public item,
and on every catalog item whose effective visibility is not public. -/
theorem c3_anonymous_only_public (s : DB) (t : Nat)
    (hp : ∀ p ∈ s.profiles, p.id = t → p.visibility ≠ "public")
    (hb : ∀ b ∈ s.user_books, b.owner_id = t → ¬ EffectiveVisibilityPublic s b) :
    can_view_profile s none t = false
    ∧ ∀ b : UserBook, ¬ EffectiveVisibilityPublic s b →
        can_view_user_book s none b = false := by
  have h1 : is_public_profile s t = false := by
    rw [Bool.eq_false_iff]
    intro h
    obtain ⟨p, hmem, hid, hvis⟩ := (is_public_profile_iff s t).mp h
    exact hp p hmem hid hvis
  have h2 : has_public_books s t = false := by
    rw [Bool.eq_false_iff]
    intro h
    obtain ⟨b, hmem, ho, hv⟩ := (has_public_books_iff s t).mp h
    exact hb b hmem ho (Or.inl hv)
  constructor
  · simp [can_view_profile, h1, h2]
  · intro b hbe
    have hv1 : (b.visibility == "public") = false := by
      rw [Bool.eq_false_iff]
      intro h
      exact hbe (Or.inl (by simpa using h))
    have hv2 : ((b.visibility == "inherit") && is_public_profile s b.owner_id) = false := by
      rw [Bool.eq_false_iff]
      intro h
      rw [Bool.and_eq_true] at h
      exact hbe (Or.inr ⟨by simpa using h.1, (is_public_profile_iff s b.owner_id).mp h.2⟩)
    simp only [can_view_user_book, hv1]
    cases hiv : (b.visibility == "inherit") with
    | false => simp [hiv]
    | true =>
      rw [hiv] at hv2
      simp only [Bool.true_and] at hv2
      simp [hiv, hv2]

/-- Concrete instance of claim C3: a followers-only profile owning one
inherit book is invisible, and the book itself is invisible, to the
anonymous viewer. -/
theorem c3_anonymous_only_public_witness :
    can_view_profile ⟨[⟨1, "ann", "followers_only"⟩], [], [], [⟨10, 1, "inherit"⟩]⟩ none 1 = false
    ∧ can_view_user_book ⟨[⟨1, "ann", "followers_only"⟩], [], [], [⟨10, 1, "inherit"⟩]⟩ none
        ⟨10, 1, "inherit"⟩ = false := by
  have h := c3_anonymous_only_public
    ⟨[⟨1, "ann", "followers_only"⟩], [], [], [⟨10, 1, "inherit"⟩]⟩ 1
    (by decide) (by decide)
  exact ⟨h.1, h.2 ⟨10, 1, "inherit"⟩ (by decide)⟩

/-! ### Row-level-security policies for follows and username_aliases
(schema.sql lines 453-496) -/

/-- The `username_aliases_select_all` policy: `using (true)` - every row
is visible to every caller, authenticated or not. -/
def username_aliases_select_all (_uid : Option Nat) (_a : Alias) : Bool :=
  true

/-- The alias rows a caller can read: the select policy applied per row. -/
def visible_aliases (s : DB) (uid : Option Nat) : List Alias :=
  s.username_aliases.filter (fun a => username_aliases_select_all uid a)

/-- Claim C10: every alias row is readable by every caller, anonymous
included, and the readable set does not depend on the viewer, so the
complete rename history is publicly enumerable. -/
theorem c10_alias_rows_public (s : DB) (uid uid2 : Option Nat) :
    visible_aliases s uid = s.username_aliases
    ∧ visible_aliases s uid = visible_aliases s uid2 := by
  refine ⟨?_, rfl⟩
  simp [visible_aliases, username_aliases_select_all]

/-- The status check constraint on `public.follows`. -/
def follow_status_ok (st : String) : Bool :=
  st == "pending" || st == "approved" || st == "rejected"

/-- A profile row with the given id exists (the foreign keys of
`public.follows`). -/
def profile_exists (s : DB) (uid : Nat) : Bool :=
  s.profiles.any (fun p => p.id == uid)

/-- Inserting a follow edge as `uid`: the `follows_insert_self` policy
(`with check auth.uid() = follower_id`) plus the table's check
constraints, foreign keys and primary key. -/
def follows_insert_allowed (s : DB) (uid : Option Nat) (f : Follow) : Bool :=
  (uid == some f.follower_id)
  && follow_status_ok f.status
  && (f.follower_id != f.followee_id)
  && profile_exists s f.follower_id
  && profile_exists s f.followee_id
  && !(s.follows.any (fun g =>
        g.follower_id == f.follower_id && g.followee_id == f.followee_id))

/-- Updating a follow edge as `uid`: the `follows_update_followee` policy
(`using` on the old row and `with check` on the new row are both
`auth.uid() = followee_id`) plus the check constraints on the new row. -/
def follows_update_allowed (uid : Option Nat) (oldRow newRow : Follow) : Bool :=
  (uid == some oldRow.followee_id)
  && (uid == some newRow.followee_id)
  && follow_status_ok newRow.status
  && (newRow.follower_id != newRow.followee_id)

/-- Deleting a follow edge as `uid`: the `follows_delete_participants`
policy - either participant. -/
def follows_delete_allowed (uid : Option Nat) (f : Follow) : Bool :=
  (uid == some f.follower_id) || (uid == some f.followee_id)

/-- Counterexample to claim C9: the policies let the follower create an
edge directly in status `approved` (nothing pins inserts to `pending`),
and let the followee update a `rejected` edge to `approved` (nothing
restricts updates to transitions out of `pending`). -/
theorem c9_counterexample :
    follows_insert_allowed
      ⟨[⟨1, "ann", "followers_only"⟩, ⟨2, "ben", "followers_only"⟩], [], [], []⟩
      (some 1) ⟨1, 2, "approved"⟩ = true
    ∧ "approved" ≠ "pending"
    ∧ follows_update_allowed (some 2) ⟨1, 2, "rejected"⟩ ⟨1, 2, "approved"⟩ = true := by
  decide

/-- Claim C9 as amended: creation requires the acting user to be the
follower, follower distinct from followee, both profiles present and no
existing edge for the pair - but any of the three statuses may be chosen
at creation; updates require the acting user to be the followee on both
the old and the new row but are allowed from any status to any status;
deletion is allowed to either participant from any state. -/
theorem c9_follow_policies_amended (s : DB) (uid : Option Nat) (f oldRow newRow : Follow) :
    (follows_insert_allowed s uid f = true ↔
      uid = some f.follower_id
      ∧ (f.status = "pending" ∨ f.status = "approved" ∨ f.status = "rejected")
      ∧ f.follower_id ≠ f.followee_id
      ∧ (∃ p ∈ s.profiles, p.id = f.follower_id)
      ∧ (∃ p ∈ s.profiles, p.id = f.followee_id)
      ∧ ¬ ∃ g ∈ s.follows, g.follower_id = f.follower_id ∧ g.followee_id = f.followee_id)
    ∧ (follows_update_allowed uid oldRow newRow = true ↔
      uid = some oldRow.followee_id ∧ uid = some newRow.followee_id
      ∧ (newRow.status = "pending" ∨ newRow.status = "approved" ∨ newRow.status = "rejected")
      ∧ newRow.follower_id ≠ newRow.followee_id)
    ∧ (follows_delete_allowed uid f = true ↔
      uid = some f.follower_id ∨ uid = some f.followee_id) := by
  refine ⟨?_, ?_, ?_⟩
  · simp [follows_insert_allowed, follow_status_ok, profile_exists,
      List.any_eq_true, and_assoc, or_assoc]
  · simp [follows_update_allowed, follow_status_ok, and_assoc, or_assoc]
  · simp [follows_delete_allowed]

/-! ### Public read paths taking a username
(`apps/web/src/app/u/[username]/page.tsx`,
`apps/web/src/app/u/[username]/b/[idSlug]/page.tsx`, and the author page
in `src/unnamed/part_001`).  These pages run on the server with the anon
key and no session, so every table read goes through row-level security
with `auth.uid()` null. -/

/-- Outcome of resolving a requested username on a public page. -/
inductive Resolution where
  | canonical : Nat → Resolution
  | redirect : String → Resolution
  | notFound : Resolution
deriving DecidableEq

/-- The profile rows an anonymous page request can read: the
`profiles_select` policy `using (can_view_profile(id))`. -/
def visible_profiles (s : DB) (uid : Option Nat) : List Profile :=
  s.profiles.filter (fun p => can_view_profile s uid p.id)

/-- The `.eq("username", u).maybeSingle()` profile lookup a public page
performs, through row-level security as the anonymous viewer: the served
profile, or the page's "Not found (or private)" card. -/
def lookup_visible_profile (s : DB) (uname : String) : Resolution :=
  match (visible_profiles s none).find? (fun p => p.username == uname) with
  | some p => .canonical p.id
  | none => .notFound

/-- `PublicProfilePage` (`u/[username]/page.tsx` lines 26-44): it looks
the raw username up in `profiles` directly - no normalization, no alias
lookup, no redirect. -/
def resolve_profile_page (s : DB) (username : String) : Resolution :=
  lookup_visible_profile s username

/-- `PublicBookPage` (`u/[username]/b/[idSlug]/page.tsx` lines 36-88):
redirect to the lowercased/trimmed username when it differs, then look
the name up in `username_aliases` and permanently redirect to
`current_username` when an alias row differs from it, and only then fall
back to the profile lookup. -/
def resolve_book_page (s : DB) (username : String) : Resolution :=
  let norm := normalize_username username
  if norm != username then .redirect norm
  else
    match s.username_aliases.find? (fun a => a.old_username == norm) with
    | some a =>
      if a.current_username != norm then .redirect a.current_username
      else lookup_visible_profile s norm
    | none => lookup_visible_profile s norm

/-- `PublicAuthorPage` (`src/unnamed/part_001` lines 27-69): same
normalize-then-alias-then-profile sequence as the book page. -/
def resolve_author_page (s : DB) (username : String) : Resolution :=
  let norm := normalize_username username
  if norm != username then .redirect norm
  else
    match s.username_aliases.find? (fun a => a.old_username == norm) with
    | some a =>
      if a.current_username != norm then .redirect a.current_username
      else lookup_visible_profile s norm
    | none => lookup_visible_profile s norm

/-- Spec 4.3 `ResolveRedirect(requestedUsername)`, as worded: normalize,
then (a) a profile currently holding the name is canonical, (b) else an
alias row on `old_username` means a permanent redirect to its
`current_username`, (c) else NotFound. -/
def specResolveRedirect (s : DB) (requested : String) : Resolution :=
  let n := normalize_username requested
  match s.profiles.find? (fun p => p.username == n) with
  | some p => .canonical p.id
  | none =>
    match s.username_aliases.find? (fun a => a.old_username == n) with
    | some a => .redirect a.current_username
    | none => .notFound

/-- Counterexample to claim C6: the resolution procedure does not hold on
the public profile page.  With an alias `alice -> bob` and no profile
holding `alice`, the spec procedure issues a permanent redirect to `bob`,
but `PublicProfilePage` performs no alias lookup and answers NotFound. -/
theorem c6_counterexample :
    resolve_profile_page ⟨[⟨1, "bob", "public"⟩], [⟨"alice", "bob", 1⟩], [], []⟩ "alice"
      = Resolution.notFound
    ∧ specResolveRedirect ⟨[⟨1, "bob", "public"⟩], [⟨"alice", "bob", 1⟩], [], []⟩ "alice"
      = Resolution.redirect "bob"
    ∧ Resolution.notFound ≠ Resolution.redirect "bob" := by
  decide

lemma filter_find_eq (l : List Profile) (viz : Profile → Bool) (n : String)
    (h : ∀ p ∈ l, p.username = n → viz p = true) :
    (l.filter viz).find? (fun p => p.username == n)
      = l.find? (fun p => p.username == n) := by
  induction l with
  | nil => rfl
  | cons p t ih =>
    have ht : ∀ q ∈ t, q.username = n → viz q = true :=
      fun q hq => h q (List.mem_cons_of_mem p hq)
    by_cases hv : viz p = true
    · rw [List.filter_cons_of_pos hv]
      simp only [List.find?_cons]
      cases hn : (p.username == n) with
      | true => rfl
      | false => exact ih ht
    · have hn' : (p.username == n) = false := by
        cases hc : (p.username == n) with
        | false => rfl
        | true => exact absurd (h p (List.mem_cons_self p t) (by simpa using hc)) hv
      rw [List.filter_cons_of_neg hv]
      conv_rhs => rw [List.find?_cons]
      rw [hn']
      exact ih ht

/-- Claim C6 as amended: on the public book and author pages the
resolution procedure holds with the alias lookup performed before the
canonical-profile lookup, which coincides with the spec order provided no
current username equals an alias `old_username`, no alias maps a name to
itself, and every profile holding the requested name is visible to the
anonymous viewer; the public profile page follows a different procedure
(raw exact-match lookup, no alias step - see the counterexample). -/
theorem c6_resolve_redirect_amended (s : DB) (n : String)
    (hn : normalize_username n = n)
    (hdisj : ∀ p ∈ s.profiles, ∀ a ∈ s.username_aliases, p.username ≠ a.old_username)
    (hself : ∀ a ∈ s.username_aliases, a.old_username ≠ a.current_username)
    (hviz : ∀ p ∈ s.profiles, p.username = n → can_view_profile s none p.id = true) :
    resolve_book_page s n = specResolveRedirect s n
    ∧ resolve_author_page s n = specResolveRedirect s n := by
  have hfind : (visible_profiles s none).find? (fun p => p.username == n)
      = s.profiles.find? (fun p => p.username == n) :=
    filter_find_eq s.profiles _ n hviz
  have hmain : resolve_book_page s n = specResolveRedirect s n := by
    unfold resolve_book_page specResolveRedirect
    rw [hn]
    simp only [bne_self_eq_false, Bool.false_eq_true, if_false]
    cases ha : s.username_aliases.find? (fun a => a.old_username == n) with
    | none =>
      cases hp : s.profiles.find? (fun p => p.username == n) with
      | none => simp [lookup_visible_profile, hfind, hp]
      | some p => simp [lookup_visible_profile, hfind, hp]
    | some a =>
      have hamem : a ∈ s.username_aliases := List.mem_of_find?_eq_some ha
      have haeq : a.old_username = n := by
        have := List.find?_some ha
        simpa using this
      have hcur : a.current_username ≠ n := fun hc => hself a hamem (by rw [haeq, hc])
      have hnofind : s.profiles.find? (fun p => p.username == n) = none := by
        rw [List.find?_eq_none]
        intro p hp
        simp only [beq_iff_eq]
        intro hc
        exact hdisj p hp a hamem (by rw [hc, haeq])
      rw [hnofind]
      have hbne : (a.current_username != n) = true := by simp [bne_iff_ne, hcur]
      simp [hbne]
  exact ⟨hmain, hmain⟩

/-- Concrete instance of amended claim C6: with an alias `alice -> bob`,
the book and author pages resolve a request for `alice` exactly as the
spec procedure does (a permanent redirect to `bob`). -/
theorem c6_resolve_redirect_amended_witness :
    resolve_book_page ⟨[⟨1, "bob", "public"⟩], [⟨"alice", "bob", 1⟩], [], []⟩ "alice"
      = specResolveRedirect ⟨[⟨1, "bob", "public"⟩], [⟨"alice", "bob", 1⟩], [], []⟩ "alice"
    ∧ resolve_author_page ⟨[⟨1, "bob", "public"⟩], [⟨"alice", "bob", 1⟩], [], []⟩ "alice"
      = specResolveRedirect ⟨[⟨1, "bob", "public"⟩], [⟨"alice", "bob", 1⟩], [], []⟩ "alice" :=
  c6_resolve_redirect_amended ⟨[⟨1, "bob", "public"⟩], [⟨"alice", "bob", 1⟩], [], []⟩ "alice"
    (by decide) (by decide) (by decide) (by decide)

instance {e a : Type} [DecidableEq e] [DecidableEq a] : DecidableEq (Except e a)
  | .error x, .error y =>
    if h : x = y then .isTrue (by rw [h]) else .isFalse (fun hc => h (by injection hc))
  | .error _, .ok _ => .isFalse (fun hc => Except.noConfusion hc)
  | .ok _, .error _ => .isFalse (fun hc => Except.noConfusion hc)
  | .ok x, .ok y =>
    if h : x = y then .isTrue (by rw [h]) else .isFalse (fun hc => h (by injection hc))

/-- Counterexample to claim C7: the validity and reserved checks run
before the no-op comparison, so a user whose current username is a
reserved word (reachable: the signup trigger inserts caller-supplied
metadata usernames unvalidated) gets `reserved_username` from a rename to
their own current name instead of the claimed `changed = false`
success. -/
theorem c7_counterexample :
    normalize_username "admin" = "admin"
    ∧ (handle_new_user db0 1 "admin").profiles.find? (fun q => q.id == 1)
        = some ⟨1, "admin", "followers_only"⟩
    ∧ change_username (handle_new_user db0 1 "admin") (some 1) "admin"
        = Except.error UErr.reserved_username := by
  decide

/-- Claim C7 as amended: whenever the acting user's current username is
well-formed and not reserved (always the case for names set through the
rename operation itself), a rename whose normalized target equals the
current username succeeds with `changed = false` and returns the state
completely unchanged; if the current name is ill-formed or reserved the
call instead fails with the corresponding validation error. -/
theorem c7_noop_rename_amended (s : DB) (uid : Nat) (x : String) (p : Profile)
    (hfind : s.profiles.find? (fun q => q.id == uid) = some p)
    (hnorm : normalize_username x = p.username)
    (hvalid : is_valid_username p.username = true)
    (hres : is_reserved_username p.username = false) :
    change_username s (some uid) x = Except.ok (s, ⟨p.username, p.username, false⟩) := by
  unfold change_username
  simp only [hnorm, hvalid, hres, hfind, Bool.not_true, Bool.false_eq_true, if_false,
    beq_self_eq_true, if_true]

/-- Concrete instance of amended claim C7: renaming to one's own current
(valid, unreserved) username is a no-op success. -/
theorem c7_noop_rename_amended_witness :
    change_username (handle_new_user db0 1 "carol") (some 1) "carol"
      = Except.ok (handle_new_user db0 1 "carol", ⟨"carol", "carol", false⟩) :=
  c7_noop_rename_amended (handle_new_user db0 1 "carol") 1 "carol"
    ⟨1, "carol", "followers_only"⟩ (by decide) (by decide) (by decide) (by decide)

/-- Counterexample to claim C8: after user 1 renames alice -> bob, a
rename back to `alice` - the user's own previous name, held by no current
profile - does not reach the alias upsert: the alias-availability guard
has no exemption for the acting user's own rows and raises
`username_taken`. -/
theorem c8_counterexample :
    change_username (handle_new_user db0 1 "alice") (some 1) "bob"
      = Except.ok (⟨[⟨1, "bob", "followers_only"⟩], [⟨"alice", "bob", 1⟩], [], []⟩,
          ⟨"alice", "bob", true⟩)
    ∧ change_username ⟨[⟨1, "bob", "followers_only"⟩], [⟨"alice", "bob", 1⟩], [], []⟩
        (some 1) "alice"
      = Except.error UErr.username_taken := by
  decide

/-- Claim C8 as amended: a rename whose normalized target appears as any
alias row's `old_username` - the acting user's own previous names
included - fails with `username_taken`; when the guards pass, the rename
succeeds and the upsert lands an alias row `(previous current, new name,
acting user)` whether or not a row with that `old_username` already
existed (the `on conflict do update` overwrite), while the profile table
is rewritten only at the acting user's row. -/
theorem c8_reclaim_amended (s : DB) (uid : Nat) (x : String) (p : Profile)
    (hnorm : normalize_username x = x)
    (hvalid : is_valid_username x = true)
    (hres : is_reserved_username x = false)
    (hfind : s.profiles.find? (fun q => q.id == uid) = some p)
    (hne : x ≠ p.username) :
    ((∃ a ∈ s.username_aliases, a.old_username = x) →
        change_username s (some uid) x = Except.error UErr.username_taken)
    ∧ ((∀ q ∈ s.profiles, q.username ≠ x) →
       (∀ a ∈ s.username_aliases, a.old_username ≠ x) →
        ∃ s2, change_username s (some uid) x = Except.ok (s2, ⟨p.username, x, true⟩)
          ∧ (⟨p.username, x, uid⟩ : Alias) ∈ s2.username_aliases
          ∧ s2.profiles = s.profiles.map
              (fun q => if q.id == uid then { q with username := x } else q)) := by
  have hbeq : (x == p.username) = false := by
    cases hc : (x == p.username) with
    | false => rfl
    | true => exact absurd (by simpa using hc) hne
  constructor
  · intro ⟨a, hamem, haeq⟩
    have halias : s.username_aliases.any (fun b => b.old_username == x) = true := by
      rw [List.any_eq_true]
      exact ⟨a, hamem, by simp [haeq]⟩
    unfold change_username
    simp only [hnorm, hvalid, hres, hfind, Bool.not_true, Bool.false_eq_true, if_false,
      hbeq, halias, if_true, ite_self]
  · intro hqs has
    have hprof : s.profiles.any (fun q => q.username == x) = false := by
      cases hc : s.profiles.any (fun q => q.username == x) with
      | false => rfl
      | true =>
        obtain ⟨q, hqmem, hq⟩ := List.any_eq_true.mp hc
        exact absurd (by simpa using hq) (hqs q hqmem)
    have halias : s.username_aliases.any (fun a => a.old_username == x) = false := by
      cases hc : s.username_aliases.any (fun a => a.old_username == x) with
      | false => rfl
      | true =>
        obtain ⟨a, hamem, ha⟩ := List.any_eq_true.mp hc
        exact absurd (by simpa using ha) (has a hamem)
    unfold change_username
    simp only [hnorm, hvalid, hres, hfind, Bool.not_true, Bool.false_eq_true, if_false,
      hbeq, hprof, halias]
    refine ⟨_, rfl, ?_, rfl⟩
    by_cases hrep : (s.username_aliases.map
        (fun a => if a.user_id == uid then { a with current_username := x } else a)).any
          (fun a => a.old_username == p.username) = true
    · simp only [hrep, if_true]
      obtain ⟨a, hamem, ha⟩ := List.any_eq_true.mp hrep
      refine List.mem_map.mpr ⟨a, hamem, ?_⟩
      simp only [ha]
      have h2 : a.old_username = p.username := by simpa using ha
      rw [h2]
      simp
    · simp only [Bool.not_eq_true] at hrep
      simp only [hrep, Bool.false_eq_true, if_false]
      exact List.mem_cons_self _ _

/-! ### The system's committed transitions, for the history claims.
The profiles table can change through the signup trigger, the
`change_username` RPC, and the direct row writes the row-level-security
policies `profiles_insert_self` and `profiles_update_self` grant an
authenticated user on their own row (schema.sql lines 459-470) - the web
app performs such direct updates for visibility changes, and nothing in
the policies restricts the username column.  The username_aliases table
has a select policy only, so it changes solely inside the
`change_username` RPC (security definer); follow and book writes touch
the other two tables only. -/

/-- A direct `insert into profiles` as `uid` under the
`profiles_insert_self` policy (`with check auth.uid() = id`), subject to
the table's primary key, the unique constraint on `username` and the
visibility check constraint; a violation aborts the statement, leaving
the state unchanged. -/
def profiles_insert_self (s : DB) (uid : Nat) (uname viz : String) : DB :=
  if (viz == "followers_only" || viz == "public")
      && !(s.profiles.any (fun p => p.id == uid))
      && !(s.profiles.any (fun p => p.username == uname)) then
    { s with profiles := ⟨uid, uname, viz⟩ :: s.profiles }
  else s

/-- A direct `update profiles set username = uname, visibility = viz
where id = uid` as `uid` under the `profiles_update_self` policy
(`using` and `with check` are both `auth.uid() = id`): the owner may
rewrite their own row - the username column included, with no
validation, no reservation check and no alias bookkeeping - subject to
the unique constraint on `username` and the visibility check
constraint.  An update that keeps a column unchanged is this statement
with the current value. -/
def profiles_update_self (s : DB) (uid : Nat) (uname viz : String) : DB :=
  if (viz == "followers_only" || viz == "public")
      && !(s.profiles.any (fun p => p.id != uid && p.username == uname)) then
    { s with profiles := s.profiles.map (fun p =>
        if p.id == uid then { p with username := uname, visibility := viz } else p) }
  else s

/-- One committed transition of the program: a signup (`handle_new_user`
trigger), a successful `change_username` call (failed calls raise and
leave the state unchanged), a direct profile insert or update permitted
by row-level security, or any follow- or book-table write. -/
def Step (s s2 : DB) : Prop :=
  (∃ uid uname, s2 = handle_new_user s uid uname)
  ∨ (∃ uid uname r, change_username s (some uid) uname = Except.ok (s2, r))
  ∨ (∃ uid uname viz, s2 = profiles_insert_self s uid uname viz)
  ∨ (∃ uid uname viz, s2 = profiles_update_self s uid uname viz)
  ∨ (∃ fs ubs, s2 = { s with follows := fs, user_books := ubs })

/-- `s2` is a later state of `s`: reachable by any number of committed
transitions. -/
def Reaches : DB → DB → Prop := Relation.ReflTransGen Step

lemma pairwise_ne_eq_of_mem {α β : Type} (f : α → β) {l : List α}
    (h : l.Pairwise (fun a b => f a ≠ f b)) {a b : α} (ha : a ∈ l) (hb : b ∈ l)
    (hfab : f a = f b) : a = b := by
  induction l with
  | nil => cases ha
  | cons c t ih =>
    rw [List.pairwise_cons] at h
    rcases List.mem_cons.mp ha with rfl | ha2
    · rcases List.mem_cons.mp hb with rfl | hb2
      · rfl
      · exact absurd hfab (h.1 b hb2)
    · rcases List.mem_cons.mp hb with rfl | hb2
      · exact absurd hfab.symm (h.1 a ha2)
      · exact ih h.2 ha2 hb2

/-- Structure of a successful `change_username` call: either the no-op
branch returned the state unchanged, or every guard passed and the new
state is the mapped profile table plus the repointed-and-upserted alias
table. -/
lemma change_username_ok_cases (s : DB) (uid : Nat) (un : String) (s2 : DB) (r : RenameOk)
    (h : change_username s (some uid) un = Except.ok (s2, r)) :
    s2 = s
    ∨ ∃ p, s.profiles.find? (fun q => q.id == uid) = some p
        ∧ (normalize_username un == p.username) = false
        ∧ s.profiles.any (fun q => q.username == normalize_username un) = false
        ∧ s.username_aliases.any (fun a => a.old_username == normalize_username un) = false
        ∧ s2 = { s with
            profiles := s.profiles.map (fun q =>
              if q.id == uid then { q with username := normalize_username un } else q),
            username_aliases :=
              if (s.username_aliases.map (fun a =>
                    if a.user_id == uid then
                      { a with current_username := normalize_username un }
                    else a)).any (fun a => a.old_username == p.username) then
                (s.username_aliases.map (fun a =>
                    if a.user_id == uid then
                      { a with current_username := normalize_username un }
                    else a)).map (fun a =>
                  if a.old_username == p.username then
                    { a with current_username := normalize_username un, user_id := uid }
                  else a)
              else ⟨p.username, normalize_username un, uid⟩ ::
                s.username_aliases.map (fun a =>
                  if a.user_id == uid then
                    { a with current_username := normalize_username un }
                  else a) } := by
  unfold change_username at h
  simp only [] at h
  split at h
  · exact absurd h (by simp)
  · split at h
    · exact absurd h (by simp)
    · split at h
      · exact absurd h (by simp)
      · rename_i p hp
        split at h
        · left
          injection h with h2
          injection h2 with hs hr
          exact hs.symm
        · rename_i hne
          split at h
          · exact absurd h (by simp)
          · split at h
            · exact absurd h (by simp)
            · rename_i hprof halias
              right
              refine ⟨p, hp, ?_, ?_, ?_, ?_⟩
              · cases hc : (normalize_username un == p.username) with
                | false => rfl
                | true => exact absurd hc hne
              · cases hc : s.profiles.any (fun q => q.username == normalize_username un) with
                | false => rfl
                | true => exact absurd hc hprof
              · cases hc : s.username_aliases.any
                    (fun a => a.old_username == normalize_username un) with
                | false => rfl
                | true => exact absurd hc halias
              · injection h with h2
                injection h2 with hs hr
                exact hs.symm

/-- The name `x` is recorded as some alias row's `old_username` - the
alias-table exclusion check shared by `is_username_available` and
`change_username`. -/
def alias_bound (s : DB) (x : String) : Bool :=
  s.username_aliases.any (fun a => a.old_username == x)

/-- No committed transition deletes or rewrites an alias row's
`old_username`: the repoint and upsert inside `change_username` preserve
every `old_username`, and no other operation writes the table at all. -/
lemma step_alias_bound {s s2 : DB} {x : String} (hstep : Step s s2)
    (hx : alias_bound s x = true) : alias_bound s2 x = true := by
  unfold Step at hstep
  rcases hstep with ⟨uid, uname, rfl⟩ | ⟨uid, un, r, heq⟩ | ⟨uid, uname, viz, rfl⟩ |
    ⟨uid, uname, viz, rfl⟩ | ⟨fs, ubs, rfl⟩
  · unfold handle_new_user
    split
    · exact hx
    · split
      · exact hx
      · exact hx
  · rcases change_username_ok_cases s uid un s2 r heq with rfl | ⟨p, hp, hne, hprof, hal, rfl⟩
    · exact hx
    · have hgold : ∀ a : Alias,
          ((if a.user_id == uid then { a with current_username := normalize_username un }
            else a) : Alias).old_username = a.old_username := by
        intro a; split <;> rfl
      have hwold : ∀ a : Alias,
          ((if a.old_username == p.username then
              { a with current_username := normalize_username un, user_id := uid }
            else a) : Alias).old_username = a.old_username := by
        intro a; split <;> rfl
      unfold alias_bound at hx ⊢
      obtain ⟨a, ha, hax⟩ := List.any_eq_true.mp hx
      split
      · rw [List.any_eq_true]
        refine ⟨_, List.mem_map.mpr ⟨_, List.mem_map.mpr ⟨a, ha, rfl⟩, rfl⟩, ?_⟩
        rw [hwold, hgold a]
        exact hax
      · rw [List.any_cons, Bool.or_eq_true]
        right
        rw [List.any_eq_true]
        refine ⟨_, List.mem_map.mpr ⟨a, ha, rfl⟩, ?_⟩
        rw [hgold a]
        exact hax
  · unfold profiles_insert_self
    split
    · exact hx
    · exact hx
  · unfold profiles_update_self
    split
    · exact hx
    · exact hx
  · exact hx

lemma reaches_alias_bound {s s2 : DB} {x : String} (h : Reaches s s2)
    (hx : alias_bound s x = true) : alias_bound s2 x = true := by
  induction h with
  | refl => exact hx
  | tail hr hstep ih => exact step_alias_bound hstep ih

/-- Counterexample to claim C4: permanent exclusion fails in both
halves.  (1) A held name is not excluded forever: the
`profiles_update_self` policy lets the holder rewrite their username
directly, with no alias bookkeeping, and the released name becomes
available again.  (2) A rename to an ever-held name does not always
fail with Taken: the signup trigger inserts metadata-supplied usernames
unvalidated, so `admin` can have been held by account 1, and account
2's later rename to it fails with `reserved_username` - the reserved
check fires before the taken checks ever run. -/
theorem c4_counterexample :
    (∃ p ∈ (handle_new_user db0 1 "alice").profiles, p.username = "alice")
    ∧ profiles_update_self (handle_new_user db0 1 "alice") 1 "zeta" "followers_only"
        = ⟨[⟨1, "zeta", "followers_only"⟩], [], [], []⟩
    ∧ is_username_available ⟨[⟨1, "zeta", "followers_only"⟩], [], [], []⟩ "alice" = true
    ∧ change_username (handle_new_user (handle_new_user db0 1 "admin") 2 "bob") (some 2) "admin"
        = Except.error UErr.reserved_username
    ∧ UErr.reserved_username ≠ UErr.username_taken := by
  decide

/-- Claim C4 as amended: having been held does not by itself
permanently exclude a name - the holder can release it again through a
direct `profiles_update_self` username update, which keeps no alias
(see the counterexample) - and a rename to a reserved or ill-formed
ever-held name fails with Reserved/InvalidFormat rather than Taken.
What is permanent is exclusion through the alias table: once a
normalized name `x` is recorded as some alias row's `old_username` (as
happens whenever a name is released through the Rename operation
itself), `is_username_available x` is false in every later reachable
state - under the full transition relation, direct profile inserts and
updates included - and a rename to `x` by any account whose current
username is not `x` fails with `username_taken` whenever `x` is
well-formed and unreserved. -/
theorem c4_permanent_exclusion_amended (s s2 : DB) (x : String)
    (halias : ∃ a ∈ s.username_aliases, a.old_username = x)
    (hnorm : normalize_username x = x)
    (hreach : Reaches s s2) :
    is_username_available s2 x = false
    ∧ ∀ v pv, s2.profiles.find? (fun q => q.id == v) = some pv → pv.username ≠ x →
        is_valid_username x = true → is_reserved_username x = false →
        change_username s2 (some v) x = Except.error UErr.username_taken := by
  have hab : alias_bound s x = true := by
    obtain ⟨a, ha, hax⟩ := halias
    unfold alias_bound
    rw [List.any_eq_true]
    exact ⟨a, ha, by simp [hax]⟩
  have hab2 : alias_bound s2 x = true := reaches_alias_bound hreach hab
  unfold alias_bound at hab2
  constructor
  · unfold is_username_available
    simp only [hnorm]
    by_cases hv : is_valid_username x = true
    · simp only [hv, Bool.not_true, Bool.false_eq_true, if_false]
      by_cases hr : is_reserved_username x = true
      · simp [hr]
      · rw [if_neg hr]
        by_cases hpany : s2.profiles.any (fun p => p.username == x) = true
        · simp [hpany]
        · simp only [Bool.not_eq_true] at hpany
          simp [hpany, hab2]
    · simp only [Bool.not_eq_true] at hv
      simp [hv]
  · intro v pv hfindv hnev hvx hrx
    have hbeq : (x == pv.username) = false := by
      cases hc : (x == pv.username) with
      | false => rfl
      | true => exact absurd (by simpa using hc) hnev.symm
    unfold change_username
    simp only [hnorm, hvx, hrx, hfindv, Bool.not_true, Bool.false_eq_true, if_false, hbeq]
    by_cases hpany : s2.profiles.any (fun q => q.username == x) = true
    · simp [hpany]
    · simp only [Bool.not_eq_true] at hpany
      simp [hpany, hab2]

/-- Concrete instance of amended claim C4: from a state with alias
alice -> bob for user 1, user 1 rewrites their username to `zeta` by a
direct `profiles_update_self` step (the newly released `bob` keeps no
alias); in the successor state `alice` is still unavailable and user
1's rename to `alice` still fails with Taken. -/
theorem c4_permanent_exclusion_amended_witness :
    is_username_available ⟨[⟨1, "zeta", "public"⟩], [⟨"alice", "bob", 1⟩], [], []⟩ "alice"
      = false
    ∧ change_username ⟨[⟨1, "zeta", "public"⟩], [⟨"alice", "bob", 1⟩], [], []⟩
        (some 1) "alice"
      = Except.error UErr.username_taken := by
  have h := c4_permanent_exclusion_amended
    ⟨[⟨1, "bob", "followers_only"⟩], [⟨"alice", "bob", 1⟩], [], []⟩
    ⟨[⟨1, "zeta", "public"⟩], [⟨"alice", "bob", 1⟩], [], []⟩ "alice"
    (by decide) (by decide)
    (Relation.ReflTransGen.single
      (Or.inr (Or.inr (Or.inr (Or.inl ⟨1, "zeta", "public", by decide⟩)))))
  exact ⟨h.1, h.2 1 ⟨1, "zeta", "public"⟩ (by decide) (by decide) (by decide) (by decide)⟩

/-! ### The alias-table invariant (claim C5) -/

/-- The unique constraint on `profiles.username`. -/
def username_unique (s : DB) : Prop :=
  s.profiles.Pairwise (fun p q => p.username ≠ q.username)

/-- The foreign key `username_aliases.user_id references profiles(id)`. -/
def alias_fk (s : DB) : Prop :=
  ∀ a ∈ s.username_aliases, ∃ p ∈ s.profiles, p.id = a.user_id

/-- The claimed invariant: every alias row's `current_username` equals
its owner's current profile username, and no alias `old_username` equals
any active profile username. -/
def alias_inv (s : DB) : Prop :=
  (∀ a ∈ s.username_aliases, ∀ p ∈ s.profiles, p.id = a.user_id →
      a.current_username = p.username)
  ∧ ∀ a ∈ s.username_aliases, ∀ p ∈ s.profiles, a.old_username ≠ p.username

instance (s : DB) : Decidable (username_unique s) := by
  unfold username_unique; infer_instance

instance (s : DB) : Decidable (alias_fk s) := by
  unfold alias_fk; infer_instance

instance (s : DB) : Decidable (alias_inv s) := by
  unfold alias_inv; infer_instance

/-- Counterexample to claim C5: the invariant is not preserved by
account creation.  Starting from the empty database, account 1 signs up
as `alice` and renames to `bob` (alias row alice -> bob); account 2 then
signs up with metadata username `alice` - the signup trigger checks
neither validity nor aliases - and the resulting reachable state has an
alias row whose `old_username` equals an active profile username. -/
theorem c5_counterexample :
    change_username (handle_new_user db0 1 "alice") (some 1) "bob"
      = Except.ok (⟨[⟨1, "bob", "followers_only"⟩], [⟨"alice", "bob", 1⟩], [], []⟩,
          ⟨"alice", "bob", true⟩)
    ∧ ¬ alias_inv
        (handle_new_user ⟨[⟨1, "bob", "followers_only"⟩], [⟨"alice", "bob", 1⟩], [], []⟩
          2 "alice") := by
  decide

/-- Claim C5 as amended: in any state satisfying the database
constraints (username uniqueness and the alias foreign key) and the
invariant, the invariant is preserved by every successful rename, by
every follow- or book-table write, and by account creation whose
username is no existing alias's `old_username`; creation itself checks
no aliases, so a signup with a metadata username equal to an alias
`old_username` breaks the invariant (see the counterexample). -/
theorem c5_alias_invariant_amended (s : DB)
    (huniq : username_unique s)
    (hfk : alias_fk s)
    (hinv : alias_inv s) :
    (∀ uid uname, (∀ a ∈ s.username_aliases, a.old_username ≠ uname) →
        alias_inv (handle_new_user s uid uname))
    ∧ (∀ uid un s2 r, change_username s (some uid) un = Except.ok (s2, r) →
        alias_inv s2)
    ∧ (∀ fs ubs, alias_inv { s with follows := fs, user_books := ubs }) := by
  unfold username_unique at huniq
  obtain ⟨hinv1, hinv2⟩ := hinv
  refine ⟨?_, ?_, ?_⟩
  · intro uid uname hfresh
    unfold handle_new_user
    split
    · exact ⟨hinv1, hinv2⟩
    · split
      · exact ⟨hinv1, hinv2⟩
      · rename_i h1 h2
        constructor
        · intro a ha p2 hp2 hid2
          rcases List.mem_cons.mp hp2 with rfl | hp3
          · exfalso
            obtain ⟨pf, hpf, hpfid⟩ := hfk a ha
            apply h1
            rw [List.any_eq_true]
            refine ⟨pf, hpf, ?_⟩
            simp only [beq_iff_eq]
            rw [hpfid]
            exact hid2.symm
          · exact hinv1 a ha p2 hp3 hid2
        · intro a ha p2 hp2
          rcases List.mem_cons.mp hp2 with rfl | hp3
          · exact hfresh a ha
          · exact hinv2 a ha p2 hp3
  · intro uid un s2 r heq
    rcases change_username_ok_cases s uid un s2 r heq with rfl | ⟨p, hp, hne, hprof, halias, rfl⟩
    · exact ⟨hinv1, hinv2⟩
    · have hpmem : p ∈ s.profiles := List.mem_of_find?_eq_some hp
      have hpid : p.id = uid := by simpa using List.find?_some hp
      have hnement : normalize_username un ≠ p.username := by
        intro hc
        rw [hc] at hne
        simp at hne
      have hgold : ∀ a : Alias,
          ((if a.user_id == uid then { a with current_username := normalize_username un }
            else a) : Alias).old_username = a.old_username := by
        intro a; split <;> rfl
      have hguser : ∀ a : Alias,
          ((if a.user_id == uid then { a with current_username := normalize_username un }
            else a) : Alias).user_id = a.user_id := by
        intro a; split <;> rfl
      have hfid : ∀ q : Profile,
          ((if q.id == uid then { q with username := normalize_username un } else q) :
            Profile).id = q.id := by
        intro q; split <;> rfl
      have hrep : ((s.username_aliases.map (fun a =>
          if a.user_id == uid then { a with current_username := normalize_username un }
          else a)).any (fun a => a.old_username == p.username)) = false := by
        cases hc : ((s.username_aliases.map (fun a =>
            if a.user_id == uid then { a with current_username := normalize_username un }
            else a)).any (fun a => a.old_username == p.username)) with
        | false => rfl
        | true =>
          obtain ⟨b, hb, hbeq⟩ := List.any_eq_true.mp hc
          obtain ⟨a, ha, rfl⟩ := List.mem_map.mp hb
          rw [hgold a] at hbeq
          exact absurd (by simpa using hbeq) (hinv2 a ha p hpmem)
      simp only [hrep, Bool.false_eq_true, if_false]
      constructor
      · intro a2 ha2 p2 hp2 hid2
        obtain ⟨q, hq, rfl⟩ := List.mem_map.mp hp2
        rcases List.mem_cons.mp ha2 with rfl | ha3
        · have hquid : q.id = uid := by rw [← hfid q]; exact hid2
          have h2 : (q.id == uid) = true := by simp [hquid]
          simp [h2]
        · obtain ⟨a, ha, rfl⟩ := List.mem_map.mp ha3
          rw [hfid q, hguser a] at hid2
          by_cases hau : a.user_id = uid
          · have h1 : (a.user_id == uid) = true := by simp [hau]
            have h2 : (q.id == uid) = true := by simp [hid2, hau]
            simp [h1, h2]
          · have h1 : (a.user_id == uid) = false := by simp [hau]
            have h2 : (q.id == uid) = false := by
              rw [hid2]
              simp [hau]
            simp only [h1, h2, Bool.false_eq_true, if_false]
            exact hinv1 a ha q hq hid2
      · intro a2 ha2 p2 hp2
        obtain ⟨q, hq, rfl⟩ := List.mem_map.mp hp2
        rcases List.mem_cons.mp ha2 with rfl | ha3
        · by_cases hquid : q.id = uid
          · have h2 : (q.id == uid) = true := by simp [hquid]
            simp only [h2, if_true]
            intro hc
            exact hnement (by simpa using hc.symm)
          · have h2 : (q.id == uid) = false := by simp [hquid]
            simp only [h2, Bool.false_eq_true, if_false]
            intro hc
            have hpq : p = q :=
              pairwise_ne_eq_of_mem (fun z : Profile => z.username) huniq hpmem hq
                (by simpa using hc)
            exact hquid (by rw [← hpq]; exact hpid)
        · obtain ⟨a, ha, rfl⟩ := List.mem_map.mp ha3
          rw [hgold a]
          by_cases hquid : q.id = uid
          · have h2 : (q.id == uid) = true := by simp [hquid]
            simp only [h2, if_true]
            intro hc
            have : s.username_aliases.any
                (fun b => b.old_username == normalize_username un) = true :=
              List.any_eq_true.mpr ⟨a, ha, by simp [hc]⟩
            rw [halias] at this
            exact Bool.false_ne_true this
          · have h2 : (q.id == uid) = false := by simp [hquid]
            simp only [h2, Bool.false_eq_true, if_false]
            exact hinv2 a ha q hq
  · intro fs ubs
    exact ⟨hinv1, hinv2⟩

/-- Concrete instance of amended claim C5: in a state with an alias row
alice -> bob for user 1, a fresh signup with a fresh username and a
rename by user 1 both preserve the invariant. -/
theorem c5_alias_invariant_amended_witness :
    alias_inv (handle_new_user
      ⟨[⟨1, "bob", "followers_only"⟩], [⟨"alice", "bob", 1⟩], [], []⟩ 2 "carol") := by
  have h := c5_alias_invariant_amended
    ⟨[⟨1, "bob", "followers_only"⟩], [⟨"alice", "bob", 1⟩], [], []⟩
    (by unfold username_unique; decide) (by decide) (by decide)
  exact h.1 2 "carol" (by decide)

/-- Concrete instance of amended claim C8: with alias alice -> bob owned
by user 1, user 1's rename back to `alice` fails with Taken. -/
theorem c8_reclaim_amended_witness :
    change_username ⟨[⟨1, "bob", "followers_only"⟩], [⟨"alice", "bob", 1⟩], [], []⟩
        (some 1) "alice" = Except.error UErr.username_taken :=
  (c8_reclaim_amended ⟨[⟨1, "bob", "followers_only"⟩], [⟨"alice", "bob", 1⟩], [], []⟩
      1 "alice" ⟨1, "bob", "followers_only"⟩
      (by decide) (by decide) (by decide) (by decide) (by decide)).1
    (by decide)
